import Mathlib

/-!
Verification development for the roxy-engine repository: a markup (HTML)
parser, a DOM node model, and a style-sheet (CSS) parser.

Embedding conventions:
* Parser cursors (byte position into an input `String`) are modelled by the
  remaining input as a `List Char`; every source operation only reads
  `input[pos..]`, so the remaining suffix is a faithful state.
* Rust panics (`assert!`, `unwrap`, unrecognized-unit aborts, slice or parse
  failures) are modelled by `Option`: `none` is an aborted parse.
* Loops that consume input are modelled with an explicit fuel argument; the
  top-level entry points pass `input.length + 1`, which always suffices
  because every loop iteration consumes at least one character.
* `f32` values are never inspected by any claim, so `Value.Length` carries
  the source literal together with the validity condition under which Rust's
  float parsing succeeds on such digits-and-dots strings.
* Rust `HashMap` iteration order is unspecified; the attribute map is
  modelled as an association list with overwrite-on-duplicate insertion.
* `char::is_whitespace` is modelled by `Char.isWhitespace` (the ASCII
  whitespace class); all inputs in the claims are ASCII.
-/

/-- `Parser::consume_while` (identical in `html.rs` and the style parser):
returns the consumed run and the remaining input. -/
def consume_while (p : Char → Bool) : List Char → List Char × List Char
  | [] => ([], [])
  | c :: rest =>
    if p c then
      let q := consume_while p rest
      (c :: q.1, q.2)
    else ([], c :: rest)

/-- `Parser::consume_whitespace`: skip a maximal whitespace run. -/
def consume_whitespace (l : List Char) : List Char :=
  (consume_while Char.isWhitespace l).2

namespace css

/-- `SingleSelector` from the style parser. -/
structure SingleSelector where
  tag_name : Option String
  id : Option String
  classes : List String
  deriving DecidableEq, Repr

/-- `Selector`: presently a single-variant union. -/
inductive Selector where
  | Single (s : SingleSelector)
  deriving DecidableEq, Repr

/-- `ColorValue::RGBA(u8, u8, u8, u8)`; the channels produced by the parser
are two-hex-digit values, hence below 256. -/
inductive ColorValue where
  | RGBA (r g b a : Nat)
  deriving DecidableEq, Repr

/-- `Unit`: the single supported length unit. -/
inductive Unit where
  | Px
  deriving DecidableEq, Repr

/-- `Value`. `Length` stores the consumed float literal (see the header
note on `f32`). -/
inductive Value where
  | Keyword (s : String)
  | Length (lit : String) (u : Unit)
  | Color (c : ColorValue)
  deriving DecidableEq, Repr

/-- `Declaration { name, value }`. -/
structure Declaration where
  name : String
  value : Value
  deriving DecidableEq, Repr

/-- `Rule { selectors, declarations }`. -/
structure Rule where
  selectors : List Selector
  declarations : List Declaration
  deriving DecidableEq, Repr

/-- `StyleSheet { rules }`. -/
structure StyleSheet where
  rules : List Rule
  deriving DecidableEq, Repr

/-- The identifier character class of `Parser::parse_identifier`:
ASCII alphanumerics and hyphens. -/
def ident_char (c : Char) : Bool := c.isAlphanum || c == '-'

/-- `Parser::parse_identifier`. -/
def parse_identifier (l : List Char) : String × List Char :=
  let q := consume_while ident_char l
  (⟨q.1⟩, q.2)

/-- `Parser::parse_single_selector`, with fuel for the scanning loop; each
non-breaking iteration consumes at least one character. -/
def parse_single_selector : Nat → List Char → SingleSelector → Option (SingleSelector × List Char)
  | 0, _, _ => none
  | fuel+1, l, sel =>
    if l.isEmpty then some (sel, l)
    else
      match consume_whitespace l with
      | [] => none
      | c :: rest =>
        if c = '#' then
          match rest with
          | [] => none
          | d :: _ =>
            if d.isAlphanum then
              let q := parse_identifier rest
              parse_single_selector fuel q.2 { sel with id := some q.1 }
            else none
        else if c = '.' then
          match rest with
          | [] => none
          | d :: _ =>
            if d.isAlphanum then
              let q := parse_identifier rest
              parse_single_selector fuel q.2 { sel with classes := sel.classes ++ [q.1] }
            else none
        else if c = '*' then
          match rest with
          | [] => none
          | d :: _ => if d.isWhitespace then parse_single_selector fuel rest sel else none
        else if c = '{' then some (sel, c :: rest)
        else if c.isAlphanum then
          let q := parse_identifier (c :: rest)
          parse_single_selector fuel q.2 { sel with tag_name := some q.1 }
        else some (sel, c :: rest)

/-- `Parser::parse_selectors`: selector list up to (and excluding) `{`;
an unexpected separator character aborts. -/
def parse_selectors : Nat → List Char → List Selector → Option (List Selector × List Char)
  | 0, _, _ => none
  | fuel+1, l, acc =>
    match parse_single_selector fuel l ⟨none, none, []⟩ with
    | none => none
    | some (s, l1) =>
      match consume_whitespace l1 with
      | [] => none
      | c :: rest =>
        if c = ',' then parse_selectors fuel (consume_whitespace rest) (acc ++ [Selector.Single s])
        else if c = '{' then some (acc ++ [Selector.Single s], c :: rest)
        else none

/-- Value of one hexadecimal digit. -/
def hex_val (c : Char) : Option Nat :=
  if c.isDigit then some (c.toNat - 48)
  else if 'a' ≤ c ∧ c ≤ 'f' then some (c.toNat - 87)
  else if 'A' ≤ c ∧ c ≤ 'F' then some (c.toNat - 55)
  else none

/-- `Parser::parse_hex_pair`: two characters read as a base-16 `u8`
(`u8::from_str_radix` also accepts a leading `+` before a single digit). -/
def parse_hex_pair : List Char → Option (Nat × List Char)
  | a :: b :: rest =>
    if a = '+' then
      match hex_val b with
      | some y => some (y, rest)
      | none => none
    else
      match hex_val a, hex_val b with
      | some x, some y => some (16 * x + y, rest)
      | _, _ => none
  | _ => none

/-- `Parser::parse_color`: `#` then three hex byte pairs, alpha fixed 255. -/
def parse_color (l : List Char) : Option (Value × List Char) :=
  match l with
  | '#' :: l1 =>
    match parse_hex_pair l1 with
    | none => none
    | some (r, l2) =>
      match parse_hex_pair l2 with
      | none => none
      | some (g, l3) =>
        match parse_hex_pair l3 with
        | none => none
        | some (b, l4) => some (Value.Color (ColorValue.RGBA r g b 255), l4)
  | _ => none

/-- The character class consumed by `Parser::parse_float`. -/
def float_char (c : Char) : Bool := c.isDigit || c == '.'

/-- The digits-and-dots strings on which Rust's `str::parse::<f32>`
succeeds: non-empty, at most one dot, at least one digit. -/
def valid_float_lit (s : List Char) : Bool :=
  !s.isEmpty && decide (s.count '.' ≤ 1) && s.any Char.isDigit

/-- `Parser::parse_float`: consume digits and dots, then require a valid
float literal (an invalid one panics in the source). -/
def parse_float (l : List Char) : Option (String × List Char) :=
  let q := consume_while float_char l
  if valid_float_lit q.1 then some (⟨q.1⟩, q.2) else none

/-- `str::to_ascii_lowercase`: `Char.toLower` only lowercases the ASCII
range `A`-`Z`, exactly as the Rust method does. -/
def to_ascii_lowercase (s : String) : String := ⟨s.data.map Char.toLower⟩

/-- `Parser::parse_unit`: only `px`, ASCII case-insensitively; anything
else panics (`unrecognized unit`). -/
def parse_unit (l : List Char) : Option (Unit × List Char) :=
  let q := parse_identifier l
  if to_ascii_lowercase q.1 = "px" then some (Unit.Px, q.2) else none

/-- `Parser::parse_length`. -/
def parse_length (l : List Char) : Option (Value × List Char) :=
  match parse_float l with
  | none => none
  | some (f, l1) =>
    match parse_unit l1 with
    | none => none
    | some (u, l2) => some (Value.Length f u, l2)

/-- `Parser::parse_declaration_value`: digit starts a length, `#` a color,
anything else a keyword; at end of input `next_char` panics. -/
def parse_declaration_value (l : List Char) : Option (Value × List Char) :=
  match l with
  | [] => none
  | c :: rest =>
    if '0' ≤ c ∧ c ≤ '9' then parse_length (c :: rest)
    else if c = '#' then parse_color (c :: rest)
    else
      let q := parse_identifier (c :: rest)
      some (Value.Keyword q.1, q.2)

/-- The `while !eof` body of `Parser::parse_declarations` (after the
opening brace was consumed); exiting at end of input returns silently. -/
def parse_declarations_loop : Nat → List Char → Option (List Declaration × List Char)
  | 0, _ => none
  | fuel+1, l =>
    if l.isEmpty then some ([], l)
    else
      match consume_whitespace l with
      | [] => none
      | c :: rest =>
        if c = '}' then some ([], rest)
        else
          let q := parse_identifier (c :: rest)
          match consume_whitespace q.2 with
          | ':' :: l2 =>
            match parse_declaration_value (consume_whitespace l2) with
            | none => none
            | some (v, l3) =>
              match consume_whitespace l3 with
              | ';' :: l4 =>
                match parse_declarations_loop fuel l4 with
                | none => none
                | some (ds, l5) => some (⟨q.1, v⟩ :: ds, l5)
              | _ => none
          | _ => none

/-- `Parser::parse_declarations`: a mandatory `{` then the loop. -/
def parse_declarations (fuel : Nat) (l : List Char) : Option (List Declaration × List Char) :=
  match l with
  | '{' :: rest => parse_declarations_loop fuel rest
  | _ => none

/-- `Parser::parse_rule`. -/
def parse_rule (fuel : Nat) (l : List Char) : Option (Rule × List Char) :=
  match parse_selectors fuel l [] with
  | none => none
  | some (sels, l1) =>
    match parse_declarations fuel l1 with
    | none => none
    | some (ds, l2) => some (⟨sels, ds⟩, l2)

/-- `Parser::parse_rules`: rules separated by whitespace until eof. -/
def parse_rules : Nat → List Char → Option (List Rule × List Char)
  | 0, _ => none
  | fuel+1, l =>
    if l.isEmpty then some ([], l)
    else
      match parse_rule fuel l with
      | none => none
      | some (r, l1) =>
        match parse_rules fuel (consume_whitespace l1) with
        | none => none
        | some (rs, l2) => some (r :: rs, l2)

/-- `css::parse` (the free function `parse` of the style-parser module):
parse a whole style-sheet string. -/
def parse (input : String) : Option StyleSheet :=
  match parse_rules (input.data.length + 1) input.data with
  | none => none
  | some (rs, _) => some ⟨rs⟩

end css

namespace dom

/-- `AttrValue`: explicit text value or implicit (valueless) attribute. -/
inductive AttrValue where
  | Text (s : String)
  | Implicit
  deriving DecidableEq, Repr

/-- `AttrMap`: a `HashMap<String, AttrValue>` modelled as an association
list with unique keys (see the header note on iteration order). -/
abbrev AttrMap := List (String × AttrValue)

/-- `HashMap::insert`: overwrite the value when the key exists. -/
def insert_attr (m : AttrMap) (k : String) (v : AttrValue) : AttrMap :=
  if m.any (fun p => p.1 == k) then m.map (fun p => if p.1 == k then (k, v) else p)
  else m ++ [(k, v)]

/-- The node tree: `NodeType`'s variants with `ElementData`'s fields
inlined (`Node` is a single-field wrapper around `NodeType` in the
source). `document` carries the fields of `DocumentData`. -/
inductive Node where
  | element (tag_name : String) (attributes : AttrMap) (child_nodes : List Node)
  | text (data : String)
  | comment (data : String)
  | document (root : Option Node) (stylesheets : List css.StyleSheet)

/-- `DocumentData`: the shared parse context. -/
structure DocumentData where
  root : Option Node
  stylesheets : List css.StyleSheet

/-- One `name="value"` / bare-`name` piece of `AttrMap`'s `Display`. -/
def attr_entry_string (p : String × AttrValue) : String :=
  match p.2 with
  | AttrValue.Text t => p.1 ++ "=\"" ++ t ++ "\""
  | AttrValue.Implicit => p.1

/-- `AttrMap`'s `Display`: entries joined with single spaces. -/
def attr_map_string (m : AttrMap) : String :=
  String.intercalate " " (m.map attr_entry_string)

/-- `"  ".repeat(indent)`. -/
def prepadding (ind : Nat) : String :=
  String.join (List.replicate ind "  ")

mutual

/-- `Node::pretty_print`, accumulating the formatter output as a string.
`writeln!` appends a newline. -/
def pretty_print : Node → Nat → String
  | Node.element tag attrs cs, ind =>
    let head := prepadding ind ++ "<" ++ tag ++
      (if attrs.length > 0 then " " ++ attr_map_string attrs else "")
    if cs.isEmpty then head ++ "></" ++ tag ++ ">\n"
    else head ++ ">\n" ++ pretty_print_list cs (ind + 1) ++
      prepadding ind ++ "</" ++ tag ++ ">\n"
  | Node.text t, ind => prepadding ind ++ t ++ "\n"
  | Node.comment t, ind => prepadding ind ++ "<!-- " ++ t ++ " -->\n"
  | Node.document _ _, _ => ""

/-- The `for_each` over `child_nodes` in `Node::pretty_print`. -/
def pretty_print_list : List Node → Nat → String
  | [], _ => ""
  | c :: t, ind => pretty_print c ind ++ pretty_print_list t ind

end

/-- `DocumentData::new`. -/
def DocumentData.new : DocumentData := ⟨none, []⟩

/-- `DocumentData::load_css`: parse the style text and append the sheet;
a style-parser abort aborts the enclosing parse. -/
def DocumentData.load_css (ctx : DocumentData) (styling : String) : Option DocumentData :=
  match css.parse styling with
  | none => none
  | some sheet => some { ctx with stylesheets := ctx.stylesheets ++ [sheet] }

end dom

namespace html

open dom

/-- `Parser::parse_tag_name`: maximal ASCII-alphanumeric run. -/
def parse_tag_name (l : List Char) : String × List Char :=
  let q := consume_while Char.isAlphanum l
  (⟨q.1⟩, q.2)

/-- `Parser::parse_text`: maximal run of characters other than `<`. -/
def parse_text (l : List Char) : Node × List Char :=
  let q := consume_while (fun c => c != '<') l
  (Node.text ⟨q.1⟩, q.2)

/-- The accumulation loop of `Parser::parse_comment`: push characters
until the consumed one is `-` and the remaining input starts with `->`;
running out of input panics. Returns the text and what follows the
terminator. -/
def comment_loop : List Char → Option (List Char × List Char)
  | [] => none
  | c :: rest =>
    if c = '-' ∧ rest.take 2 = ['-', '>'] then some ([], rest.drop 2)
    else
      match comment_loop rest with
      | none => none
      | some (res, l1) => some (c :: res, l1)

/-- `Parser::parse_comment`: `<!--`, the loop, then the asserted `->`
(already checked by the loop's `starts_with`). -/
def parse_comment (l : List Char) : Option (Node × List Char) :=
  match l with
  | '<' :: '!' :: '-' :: '-' :: rest =>
    match comment_loop rest with
    | none => none
    | some (res, l1) => some (Node.comment ⟨res⟩, l1)
  | _ => none

/-- `Parser::parse_attr_value`: a quote (double or single), everything up
to the matching quote, then the closing quote. -/
def parse_attr_value (l : List Char) : Option (List Char × List Char) :=
  match l with
  | [] => none
  | q :: rest =>
    if q = '"' ∨ q = '\'' then
      let w := consume_while (fun c => c != q) rest
      match w.2 with
      | q2 :: l1 => if q2 = q then some (w.1, l1) else none
      | [] => none
    else none

/-- `Parser::parse_attr`: a name, then an unconditional `consume_char`;
`=` introduces a quoted value, any other consumed character yields the
name with an empty value (note: that character stays consumed). -/
def parse_attr (l : List Char) : Option ((String × List Char) × List Char) :=
  let q := parse_tag_name l
  match q.2 with
  | [] => none
  | c :: l1 =>
    if c = '=' then
      match parse_attr_value l1 with
      | none => none
      | some (v, l2) => some ((q.1, v), l2)
    else some ((q.1, []), l1)

/-- `Parser::parse_attributes`: attributes until `>` or `/`; an empty
parsed value is stored as `AttrValue::Text`, a non-empty one as
`AttrValue::Implicit` (the source's inverted mapping, verbatim). -/
def parse_attributes : Nat → List Char → AttrMap → Option (AttrMap × List Char)
  | 0, _, _ => none
  | fuel+1, l, m =>
    match consume_whitespace l with
    | [] => none
    | c :: rest =>
      if c = '>' ∨ c = '/' then some (m, c :: rest)
      else
        match parse_attr (c :: rest) with
        | none => none
        | some ((name, value), l1) =>
          if value.isEmpty then
            parse_attributes fuel l1 (insert_attr m name (AttrValue.Text ⟨value⟩))
          else
            parse_attributes fuel l1 (insert_attr m name AttrValue.Implicit)

mutual

/-- `Parser::parse_node`: comment marker, element, or text run.
Results are `(parsed, remaining input, context)`. -/
def parse_node : Nat → List Char → DocumentData → Option (Node × List Char × DocumentData)
  | 0, _, _ => none
  | fuel+1, l, ctx =>
    if l.take 4 = ['<', '!', '-', '-'] then
      match parse_comment l with
      | none => none
      | some (n, l1) => some (n, l1, ctx)
    else
      match l with
      | [] => none
      | c :: rest =>
        if c = '<' then parse_element fuel (c :: rest) ctx
        else
          let q := parse_text (c :: rest)
          some (q.1, q.2, ctx)

/-- `Parser::parse_element`: opening tag with attributes, optional
self-closing `/`, children, the style side effect, then a closing tag
whose name must match the opening one. -/
def parse_element : Nat → List Char → DocumentData → Option (Node × List Char × DocumentData)
  | 0, _, _ => none
  | fuel+1, l, ctx =>
    match l with
    | '<' :: l1 =>
      let tn := parse_tag_name l1
      match parse_attributes fuel tn.2 [] with
      | none => none
      | some (attrs, l2) =>
        match l2 with
        | [] => none
        | c :: l3 =>
          if c = '/' then
            match l3 with
            | '>' :: l4 => some (Node.element tn.1 attrs [], l4, ctx)
            | _ => none
          else if c = '>' then
            match parse_nodes fuel l3 ctx with
            | none => none
            | some (children, l4, ctx1) =>
              let after_style : Option DocumentData :=
                if tn.1 = "style" then
                  match children.head? with
                  | none => none
                  | some inner =>
                    match inner with
                    | Node.text styling => ctx1.load_css styling
                    | _ => some ctx1
                else some ctx1
              match after_style with
              | none => none
              | some ctx2 =>
                match l4 with
                | '<' :: '/' :: l5 =>
                  let cn := parse_tag_name l5
                  if cn.1 = tn.1 then
                    match cn.2 with
                    | '>' :: l6 => some (Node.element tn.1 attrs children, l6, ctx2)
                    | _ => none
                  else none
                | _ => none
          else none
    | _ => none

/-- `Parser::parse_nodes`: skip whitespace, stop at eof or a closing-tag
marker, otherwise parse a node and continue. -/
def parse_nodes : Nat → List Char → DocumentData → Option (List Node × List Char × DocumentData)
  | 0, _, _ => none
  | fuel+1, l, ctx =>
    let l1 := consume_whitespace l
    if l1.isEmpty ∨ l1.take 2 = ['<', '/'] then some ([], l1, ctx)
    else
      match parse_node fuel l1 ctx with
      | none => none
      | some (n, l2, ctx1) =>
        match parse_nodes fuel l2 ctx1 with
        | none => none
        | some (ns, l3, ctx2) => some (n :: ns, l3, ctx2)

end

/-- `html::parse`: the top-level entry. One top-level node is returned
unwrapped; otherwise the nodes are wrapped in a synthetic attribute-less
`html` element. Leftover input past the top-level sequence is dropped, as
in the source. -/
def parse (input : String) (ctx : DocumentData) : Option (Node × DocumentData) :=
  match parse_nodes (input.data.length + 1) input.data ctx with
  | none => none
  | some (ns, _, ctx1) =>
    match ns with
    | [n] => some (n, ctx1)
    | other => some (Node.element "html" [] other, ctx1)

end html

namespace dom

/-- `DocumentData::load_document`: parse the markup using the context
itself and store the root. -/
def load_document (ctx : DocumentData) (document : String) : Option DocumentData :=
  match html.parse document ctx with
  | none => none
  | some (node, ctx1) => some { ctx1 with root := some node }

/-- `dom::parse`: run a whole document through a fresh context and wrap
the result in a `Document` node. -/
def parse (document : String) : Option Node :=
  match load_document ⟨none, []⟩ document with
  | none => none
  | some ctx => some (Node.document ctx.root ctx.stylesheets)

end dom

/-! ## Helper lemmas about the embedding -/

section helpers

lemma consume_while_append (p : Char → Bool) (a b : List Char)
    (ha : ∀ c ∈ a, p c = true) (hb : ∀ c, b.head? = some c → p c = false) :
    consume_while p (a ++ b) = (a, b) := by
  induction a with
  | nil =>
    cases b with
    | nil => rfl
    | cons c t =>
      have hc : p c = false := hb c rfl
      simp [consume_while, hc]
  | cons c a' ih =>
    have hc : p c = true := ha c (by simp)
    have ih' := ih (fun x hx => ha x (by simp [hx]))
    simp [consume_while, hc, ih']

lemma consume_while_all (p : Char → Bool) (a : List Char)
    (ha : ∀ c ∈ a, p c = true) : consume_while p a = (a, []) := by
  have := consume_while_append p a [] ha (by simp)
  simpa using this

lemma isAlphanum_not_whitespace {c : Char} (h : c.isAlphanum = true) :
    c.isWhitespace = false := by
  cases hw : c.isWhitespace with
  | false => rfl
  | true =>
    exfalso
    simp only [Char.isWhitespace, Bool.or_eq_true, decide_eq_true_eq] at hw
    rcases hw with ((h1 | h1) | h1) | h1 <;> subst h1 <;> exact absurd h (by decide)

lemma isAlphanum_ne {c : Char} (d : Char) (h : c.isAlphanum = true)
    (hd : d.isAlphanum = false) : c ≠ d := by
  intro e; subst e; simp [h] at hd

end helpers

/-! ## Further helper lemmas and spec-side predicates -/

lemma consume_while_head_false (p : Char → Bool) (c : Char) (l : List Char)
    (h : p c = false) : consume_while p (c :: l) = ([], c :: l) := by
  simp [consume_while, h]

/-- Whether a character list contains the comment terminator `-->` as a
contiguous substring. -/
def contains_comment_end : List Char → Bool
  | [] => false
  | c :: rest => (c == '-' && rest.take 2 == ['-', '>']) || contains_comment_end rest

/-- The comment accumulation loop returns a prefix of its input that stops
before the first `-->`, so the accumulated text never contains `-->`. -/
lemma comment_loop_spec : ∀ l res rest, html.comment_loop l = some (res, rest) →
    contains_comment_end res = false ∧ res <+: l := by
  intro l
  induction l with
  | nil => intro res rest h; simp [html.comment_loop] at h
  | cons c t ih =>
    intro res rest h
    by_cases hc : c = '-' ∧ t.take 2 = ['-', '>']
    · rw [html.comment_loop, if_pos hc] at h
      simp only [Option.some.injEq, Prod.mk.injEq] at h
      obtain ⟨rfl, rfl⟩ := h
      exact ⟨rfl, List.nil_prefix⟩
    · rw [html.comment_loop, if_neg hc] at h
      cases heq : html.comment_loop t with
      | none => rw [heq] at h; simp at h
      | some p =>
        obtain ⟨r, l1⟩ := p
        rw [heq] at h
        simp only [Option.some.injEq, Prod.mk.injEq] at h
        obtain ⟨rfl, rfl⟩ := h
        obtain ⟨h1, h2⟩ := ih r l1 heq
        constructor
        · by_cases hcr : c = '-' ∧ r.take 2 = ['-', '>']
          · exfalso
            apply hc
            refine ⟨hcr.1, ?_⟩
            obtain ⟨hcr1, hcr2⟩ := hcr
            cases r with
            | nil => simp at hcr2
            | cons x r1 =>
              cases r1 with
              | nil => simp at hcr2
              | cons y r2 =>
                have hxy : x = '-' ∧ y = '>' := by simpa using hcr2
                obtain ⟨s, hs⟩ := h2
                rw [← hs, hxy.1, hxy.2]
                rfl
          · rw [contains_comment_end, h1, Bool.or_false]
            rcases Decidable.not_and_iff_or_not.mp hcr with hx | hx
            · simp [hx]
            · simp [hx]
        · exact (List.cons_prefix_cons).mpr ⟨rfl, h2⟩

/-! ## Claims -/

/-- C6: the style parser applied to the input with selector `a` and one
declaration giving `color` the six-hex-digit red color (the claim's
concrete input, spelled below as characters) produces one rule whose
selector list is the single selector `Single{tag_name: some "a",
id: none, classes: []}` and whose declaration list is the single
declaration `color` with value `Color (RGBA 255 0 0 255)`. -/
theorem c6_color_rule :
    css.parse ⟨['a', '{', 'c', 'o', 'l', 'o', 'r', ':', '#',
                'f', 'f', '0', '0', '0', '0', ';', '}']⟩ =
      some ⟨[⟨[css.Selector.Single ⟨some "a", none, []⟩],
             [⟨"color", css.Value.Color (css.ColorValue.RGBA 255 0 0 255)⟩]⟩]⟩ := by
  rfl

/-- C5 counterexample: `<!-- note -->` parses to a comment whose text is
`" note "` — with the surrounding spaces — not exactly `"note"`. -/
theorem c5_counter :
    html.parse "<!-- note -->" dom.DocumentData.new =
      some (dom.Node.comment " note ", dom.DocumentData.new) ∧
    (" note " : String) ≠ "note" :=
  ⟨by rfl, by decide⟩

/-- C5 (amended): `<!-- note -->` parses to a comment node whose text is
exactly `" note "` (the characters strictly between `<!--` and `-->`,
spaces included), and for every comment the accumulated text never
contains the terminating `-->` sequence. -/
theorem c5_comment :
    html.parse "<!-- note -->" dom.DocumentData.new =
      some (dom.Node.comment " note ", dom.DocumentData.new) ∧
    (∀ l res rest, html.comment_loop l = some (res, rest) →
      contains_comment_end res = false) :=
  ⟨by rfl, fun l res rest h => (comment_loop_spec l res rest h).1⟩

/-- C5 witness: the terminator-freeness part applied to a concrete
comment body. -/
theorem c5_witness : contains_comment_end "ab".data = false :=
  c5_comment.2 "ab-->x".data "ab".data "x".data (by rfl)

/-- C10: the markup parser's top-level entry on the empty string or on
whitespace-only input does not fail: it returns a synthetic `html`
element with an empty attribute map and no children. -/
theorem c10_whitespace_input :
    ∀ (s : String) (ctx : dom.DocumentData), (∀ c ∈ s.data, c.isWhitespace = true) →
      html.parse s ctx = some (dom.Node.element "html" [] [], ctx) := by
  intro s ctx h
  have hcw : consume_while Char.isWhitespace s.data = (s.data, []) :=
    consume_while_all _ _ h
  unfold html.parse
  rw [html.parse_nodes]
  simp [consume_whitespace, hcw]

/-- C10 witness: the empty string and a whitespace-only string. -/
theorem c10_witness :
    html.parse "" dom.DocumentData.new =
      some (dom.Node.element "html" [] [], dom.DocumentData.new) ∧
    html.parse " \n " dom.DocumentData.new =
      some (dom.Node.element "html" [] [], dom.DocumentData.new) :=
  ⟨c10_whitespace_input "" dom.DocumentData.new (by decide),
   c10_whitespace_input " \n " dom.DocumentData.new (by decide)⟩

/-- C3: whenever the top-level node sequence parse yields exactly one
node, `html::parse` returns that node unwrapped; for any other number of
top-level nodes it returns a synthetic `html` element with an empty
attribute map and those nodes as children. -/
theorem c3_root_wrap : ∀ (input : String) (ctx : dom.DocumentData) ns l1 ctx1,
    html.parse_nodes (input.data.length + 1) input.data ctx = some (ns, l1, ctx1) →
    (∀ n, ns = [n] → html.parse input ctx = some (n, ctx1)) ∧
    (ns.length ≠ 1 → html.parse input ctx = some (dom.Node.element "html" [] ns, ctx1)) := by
  intro input ctx ns l1 ctx1 h
  constructor
  · intro n hn; subst hn; unfold html.parse; rw [h]
  · intro hlen; unfold html.parse; rw [h]
    cases ns with
    | nil => rfl
    | cons a t =>
      cases t with
      | nil => exact absurd rfl hlen
      | cons b t2 => rfl

/-- C3 witness: a one-node input is returned unwrapped; a two-node input
is wrapped in a synthetic `html` element. -/
theorem c3_witness :
    html.parse "hi" dom.DocumentData.new = some (dom.Node.text "hi", dom.DocumentData.new) ∧
    html.parse "<a></a><b></b>" dom.DocumentData.new =
      some (dom.Node.element "html" []
        [dom.Node.element "a" [] [], dom.Node.element "b" [] []], dom.DocumentData.new) :=
  ⟨(c3_root_wrap "hi" dom.DocumentData.new [dom.Node.text "hi"] [] dom.DocumentData.new
      (by rfl)).1 (dom.Node.text "hi") rfl,
   (c3_root_wrap "<a></a><b></b>" dom.DocumentData.new
      [dom.Node.element "a" [] [], dom.Node.element "b" [] []] [] dom.DocumentData.new
      (by rfl)).2 (by decide)⟩

/-- C8: a length value's unit identifier is accepted — yielding
`Unit.Px` — exactly when it equals `px` under ASCII case-insensitive
comparison; any other identifier aborts the parse. -/
theorem c8_unit_px : ∀ (u r : List Char), (∀ c ∈ u, css.ident_char c = true) →
    css.parse_unit (u ++ ';' :: r) =
      if css.to_ascii_lowercase ⟨u⟩ = "px" then some (css.Unit.Px, ';' :: r) else none := by
  intro u r h
  have hcw : consume_while css.ident_char (u ++ ';' :: r) = (u, ';' :: r) :=
    consume_while_append _ _ _ h (by intro c hc; simp at hc; subst hc; decide)
  simp [css.parse_unit, css.parse_identifier, hcw]

/-- C8 witness: `PX` is accepted case-insensitively, `em` aborts. -/
theorem c8_witness :
    css.parse_unit ("PX".data ++ ';' :: []) = some (css.Unit.Px, [';']) ∧
    css.parse_unit ("em".data ++ ';' :: []) = none :=
  ⟨by rw [c8_unit_px "PX".data [] (by decide)]; rfl,
   by rw [c8_unit_px "em".data [] (by decide)]; rfl⟩

/-- C2 counterexample: an element with a non-empty attribute map does
have its attribute string emitted by the pretty-printer (and an empty map
yields none), so the printer does not emit "only when the map is empty". -/
theorem c2_counter :
    ([("a", dom.AttrValue.Implicit)] : dom.AttrMap) ≠ [] ∧
    dom.pretty_print (dom.Node.element "div" [("a", dom.AttrValue.Implicit)] []) 0 =
      "<div a></div>\n" ∧
    dom.pretty_print (dom.Node.element "div" [] []) 0 = "<div></div>\n" :=
  ⟨by decide, by rfl, by rfl⟩

/-- C2 (amended): the pretty-printer emits the rendered attribute string
exactly when the element's attribute map is non-empty: every element
renders as the indentation, `<`, the tag name, then the attribute string
preceded by a space when the map is non-empty and nothing when it is
empty, followed by the rest of the rendering. -/
theorem c2_attr_emission : ∀ (tag : String) (attrs : dom.AttrMap) (cs : List dom.Node) (ind : Nat),
    ∃ tail : String, dom.pretty_print (dom.Node.element tag attrs cs) ind =
      dom.prepadding ind ++ "<" ++ tag ++
        (if attrs = [] then "" else " " ++ dom.attr_map_string attrs) ++ tail := by
  intro tag attrs cs ind
  rw [dom.pretty_print]
  cases attrs with
  | nil =>
    cases hcs : cs.isEmpty with
    | true => exact ⟨"></" ++ tag ++ ">\n", by simp [hcs, String.append_assoc]⟩
    | false =>
      exact ⟨">\n" ++ dom.pretty_print_list cs (ind + 1) ++ dom.prepadding ind ++ "</" ++
        tag ++ ">\n", by simp [hcs, String.append_assoc]⟩
  | cons p m =>
    cases hcs : cs.isEmpty with
    | true => exact ⟨"></" ++ tag ++ ">\n", by simp [hcs, String.append_assoc]⟩
    | false =>
      exact ⟨">\n" ++ dom.pretty_print_list cs (ind + 1) ++ dom.prepadding ind ++ "</" ++
        tag ++ ">\n", by simp [hcs, String.append_assoc]⟩

/-- C1: an attribute whose parsed value string is empty (a valueless
attribute such as `disabled`) is stored in the attribute map as
`AttrValue.Text` with that empty string, and an attribute with a
non-empty parsed value is stored as `AttrValue.Implicit` — the source's
inverted mapping, as the claim states. -/
theorem c1_attr_insertion :
    ∀ (fuel : Nat) (name value r : List Char), 2 ≤ fuel → name ≠ [] →
    (∀ c ∈ name, c.isAlphanum = true) → (∀ c ∈ value, c ≠ '"') →
    html.parse_attributes fuel (name ++ ' ' :: '>' :: r) [] =
      some ([(⟨name⟩, dom.AttrValue.Text "")], '>' :: r) ∧
    html.parse_attributes fuel (name ++ '=' :: '"' :: (value ++ '"' :: '>' :: r)) [] =
      some ([(⟨name⟩, if value = [] then dom.AttrValue.Text ""
                      else dom.AttrValue.Implicit)], '>' :: r) := by
  intro fuel name value r hfuel hne hname hval
  obtain ⟨f, rfl⟩ : ∃ f, fuel = f + 2 := ⟨fuel - 2, by omega⟩
  obtain ⟨a, name', rfl⟩ : ∃ a name', name = a :: name' := by
    cases name with
    | nil => exact absurd rfl hne
    | cons a t => exact ⟨a, t, rfl⟩
  have ha : a.isAlphanum = true := hname a (by simp)
  have haw : a.isWhitespace = false := isAlphanum_not_whitespace ha
  have hgt : a ≠ '>' := isAlphanum_ne '>' ha (by decide)
  have hsl : a ≠ '/' := isAlphanum_ne '/' ha (by decide)
  have hskip1 : consume_while Char.isWhitespace (a :: (name' ++ ' ' :: '>' :: r)) =
      ([], a :: (name' ++ ' ' :: '>' :: r)) := consume_while_head_false _ _ _ haw
  have hskip2 : consume_while Char.isWhitespace
        (a :: (name' ++ '=' :: '"' :: (value ++ '"' :: '>' :: r))) =
      ([], a :: (name' ++ '=' :: '"' :: (value ++ '"' :: '>' :: r))) :=
    consume_while_head_false _ _ _ haw
  have hskip3 : consume_while Char.isWhitespace ('>' :: r) = ([], '>' :: r) :=
    consume_while_head_false _ _ _ (by decide)
  have htag1 : consume_while Char.isAlphanum (a :: (name' ++ ' ' :: '>' :: r)) =
      (a :: name', ' ' :: '>' :: r) := by
    have := consume_while_append Char.isAlphanum (a :: name') (' ' :: '>' :: r) hname
      (by intro c hc; simp at hc; subst hc; decide)
    simpa using this
  have htag2 : consume_while Char.isAlphanum
        (a :: (name' ++ '=' :: '"' :: (value ++ '"' :: '>' :: r))) =
      (a :: name', '=' :: '"' :: (value ++ '"' :: '>' :: r)) := by
    have := consume_while_append Char.isAlphanum (a :: name')
      ('=' :: '"' :: (value ++ '"' :: '>' :: r)) hname
      (by intro c hc; simp at hc; subst hc; decide)
    simpa using this
  have hvalcw : consume_while (fun c => c != '"') (value ++ '"' :: '>' :: r) =
      (value, '"' :: '>' :: r) := by
    apply consume_while_append
    · intro c hc; simpa using hval c hc
    · intro c hc; simp at hc; subst hc; decide
  constructor
  · simp [html.parse_attributes, consume_whitespace, hskip1, hskip3, hgt, hsl,
      html.parse_attr, html.parse_tag_name, htag1, dom.insert_attr]
  · cases value with
    | nil =>
      simp only [List.nil_append, List.cons_append] at hskip2 htag2 hvalcw
      simp [html.parse_attributes, consume_whitespace, hskip2, hskip3, hgt, hsl,
        html.parse_attr, html.parse_tag_name, htag2, html.parse_attr_value,
        hvalcw, dom.insert_attr]
    | cons v vs =>
      simp only [List.nil_append, List.cons_append] at hskip2 htag2 hvalcw
      simp [html.parse_attributes, consume_whitespace, hskip2, hskip3, hgt, hsl,
        html.parse_attr, html.parse_tag_name, htag2, html.parse_attr_value,
        hvalcw, dom.insert_attr]

/-- C1 witness: `disabled` (valueless) is stored as `Text ""`;
`href="x"` is stored as `Implicit`. -/
theorem c1_witness :
    html.parse_attributes 2 ("disabled".data ++ ' ' :: '>' :: []) [] =
      some ([("disabled", dom.AttrValue.Text "")], ['>']) ∧
    html.parse_attributes 2 ("href".data ++ '=' :: '"' :: ("x".data ++ '"' :: '>' :: [])) [] =
      some ([("href", dom.AttrValue.Implicit)], ['>']) :=
  ⟨by
    have := (c1_attr_insertion 2 "disabled".data [] [] (by decide) (by decide)
      (by decide) (by decide)).1
    simpa using this,
   by
    have := (c1_attr_insertion 2 "href".data "x".data [] (by decide) (by decide)
      (by decide) (by decide)).2
    simpa using this⟩

/-- C9: a document containing a `style` element with zero children and
balanced, matching tags aborts the whole parse: wherever such an element
sits (the first conjunct quantifies over all whitespace-only contents,
all following input and all contexts — i.e. over every position in a
document), the style-forwarding step unwraps the missing first child and
panics. The remaining conjuncts run whole documents with the element at
the root and nested in a `div`. -/
theorem c9_style_no_children :
    (∀ (fuel : Nat) (ws r : List Char) (ctx : dom.DocumentData), 3 ≤ fuel →
      (∀ c ∈ ws, c.isWhitespace = true) →
      html.parse_node fuel
        ('<' :: 's' :: 't' :: 'y' :: 'l' :: 'e' :: '>' :: (ws ++ '<' :: '/' :: r)) ctx = none) ∧
    html.parse "<style></style>" dom.DocumentData.new = none ∧
    html.parse "<style> </style>" dom.DocumentData.new = none ∧
    html.parse "<div>x<style></style></div>" dom.DocumentData.new = none := by
  refine ⟨?_, by rfl, by rfl, by rfl⟩
  intro fuel ws r ctx hf hws
  obtain ⟨f, rfl⟩ : ∃ f, fuel = f + 3 := ⟨fuel - 3, by omega⟩
  have hws2 : consume_while Char.isWhitespace (ws ++ '<' :: '/' :: r) = (ws, '<' :: '/' :: r) :=
    consume_while_append _ _ _ hws (by intro c hc; simp at hc; subst hc; decide)
  simp [html.parse_node, html.parse_element, html.parse_attributes, html.parse_tag_name,
    html.parse_nodes, consume_whitespace, consume_while, hws2]

/-- C9 witness: the positional statement applied at a concrete state. -/
theorem c9_witness :
    html.parse_node 3 ('<' :: 's' :: 't' :: 'y' :: 'l' :: 'e' :: '>' ::
      ([' '] ++ '<' :: '/' :: "style>".data)) dom.DocumentData.new = none :=
  c9_style_no_children.1 3 [' '] "style>".data dom.DocumentData.new (by decide) (by decide)

/-- Parsing the node sequence `<t1>hi</t2>` (for non-empty alphanumeric
tag names, `t1` not `style`): a closing-tag name mismatch aborts the
parse, and matching names yield the element with that tag name, the
parsed (empty) attribute map and the parsed text child. -/
lemma closing_tag_parse_nodes (a b : Char) (t1' t2' : List Char) (ctx : dom.DocumentData)
    (fuel : Nat) (hf : 5 ≤ fuel)
    (h1an : ∀ c ∈ a :: t1', c.isAlphanum = true)
    (h2an : ∀ c ∈ b :: t2', c.isAlphanum = true)
    (hstyle : (⟨a :: t1'⟩ : String) ≠ "style") :
    html.parse_nodes fuel
      ('<' :: ((a :: t1') ++ ('>' :: 'h' :: 'i' :: '<' :: '/' :: ((b :: t2') ++ ['>'])))) ctx =
      if (a :: t1' : List Char) = b :: t2' then
        some ([dom.Node.element ⟨a :: t1'⟩ [] [dom.Node.text "hi"]], [], ctx)
      else none := by
  simp only [List.cons_append]
  obtain ⟨f, rfl⟩ : ∃ f, fuel = f + 5 := ⟨fuel - 5, by omega⟩
  have ha := h1an a (by simp)
  have hb := h2an b (by simp)
  have haw : a.isWhitespace = false := isAlphanum_not_whitespace ha
  have ha1 : a ≠ '!' := isAlphanum_ne _ ha (by decide)
  have ha2 : a ≠ '/' := isAlphanum_ne _ ha (by decide)
  have htag1 : consume_while Char.isAlphanum
      (a :: (t1' ++ '>' :: 'h' :: 'i' :: '<' :: '/' :: (b :: (t2' ++ ['>'])))) =
      (a :: t1', '>' :: 'h' :: 'i' :: '<' :: '/' :: (b :: (t2' ++ ['>']))) := by
    have := consume_while_append Char.isAlphanum (a :: t1')
      ('>' :: 'h' :: 'i' :: '<' :: '/' :: (b :: (t2' ++ ['>']))) h1an
      (by intro c hc; simp at hc; subst hc; decide)
    simpa using this
  have htag2 : consume_while Char.isAlphanum (b :: (t2' ++ ['>'])) = (b :: t2', ['>']) := by
    have := consume_while_append Char.isAlphanum (b :: t2') ['>'] h2an
      (by intro c hc; simp at hc; subst hc; decide)
    simpa using this
  have hws_lt : ∀ X : List Char, consume_while Char.isWhitespace ('<' :: X) = ([], '<' :: X) :=
    fun X => consume_while_head_false _ _ _ (by decide)
  have hws_gt : ∀ X : List Char, consume_while Char.isWhitespace ('>' :: X) = ([], '>' :: X) :=
    fun X => consume_while_head_false _ _ _ (by decide)
  have hws_h : ∀ X : List Char, consume_while Char.isWhitespace ('h' :: X) = ([], 'h' :: X) :=
    fun X => consume_while_head_false _ _ _ (by decide)
  have hws_a : ∀ X : List Char, consume_while Char.isWhitespace (a :: X) = ([], a :: X) :=
    fun X => consume_while_head_false _ _ _ haw
  have hws_nil : consume_while Char.isWhitespace [] = ([], []) := rfl
  have htext : ∀ X : List Char,
      consume_while (fun c => c != '<') ('h' :: 'i' :: '<' :: X) = (['h', 'i'], '<' :: X) :=
    fun X => by simp [consume_while]
  by_cases h12 : (a :: t1' : List Char) = b :: t2'
  · rw [if_pos h12]
    obtain ⟨rfl, rfl⟩ : a = b ∧ t1' = t2' := by
      injection h12 with x y
      exact ⟨x, y⟩
    simp [html.parse_nodes, html.parse_node, html.parse_element, html.parse_attributes,
      html.parse_tag_name, html.parse_text, consume_whitespace,
      hws_lt, hws_gt, hws_h, hws_a, hws_nil, htext,
      haw, ha1, ha2, htag1, htag2, hstyle]
  · rw [if_neg h12]
    have hmk : ¬((⟨b :: t2'⟩ : String) = (⟨a :: t1'⟩ : String)) := by
      intro h
      apply h12
      have h2 : (b :: t2' : List Char) = a :: t1' := by
        have := congrArg String.data h
        simpa using this
      exact h2.symm
    simp [html.parse_nodes, html.parse_node, html.parse_element, html.parse_attributes,
      html.parse_tag_name, html.parse_text, consume_whitespace,
      hws_lt, hws_gt, hws_h, hws_a, hws_nil, htext,
      haw, ha1, ha2, htag1, htag2, hstyle, hmk]

/-- C7: for a non-self-closing element, a closing-tag name that does not
equal the opening tag's name exactly makes the whole parse abort, and
matching names make `parse_element` return an element with that tag
name, the parsed attributes and the parsed children. -/
theorem c7_closing_tag : ∀ (t1 t2 : List Char) (ctx : dom.DocumentData),
    t1 ≠ [] → (∀ c ∈ t1, c.isAlphanum = true) →
    t2 ≠ [] → (∀ c ∈ t2, c.isAlphanum = true) →
    (⟨t1⟩ : String) ≠ "style" →
    html.parse ⟨'<' :: (t1 ++ ('>' :: 'h' :: 'i' :: '<' :: '/' :: (t2 ++ ['>'])))⟩ ctx =
      if t1 = t2 then some (dom.Node.element ⟨t1⟩ [] [dom.Node.text "hi"], ctx) else none := by
  intro t1 t2 ctx h1ne h1an h2ne h2an hstyle
  obtain ⟨a, t1', rfl⟩ := List.exists_cons_of_ne_nil h1ne
  obtain ⟨b, t2', rfl⟩ := List.exists_cons_of_ne_nil h2ne
  unfold html.parse
  rw [show ((⟨'<' :: ((a :: t1') ++ ('>' :: 'h' :: 'i' :: '<' :: '/' :: ((b :: t2') ++ ['>'])))⟩ : String)).data
      = '<' :: ((a :: t1') ++ ('>' :: 'h' :: 'i' :: '<' :: '/' :: ((b :: t2') ++ ['>']))) from rfl]
  rw [closing_tag_parse_nodes a b t1' t2' ctx
      (('<' :: ((a :: t1') ++ ('>' :: 'h' :: 'i' :: '<' :: '/' :: ((b :: t2') ++ ['>'])))).length + 1)
      (by simp; omega) h1an h2an hstyle]
  by_cases h12 : (a :: t1' : List Char) = b :: t2'
  · simp [h12]
  · simp [h12]

/-- C7 witness: `<p>hi</p>` parses to the element; `<p>hi</q>` aborts. -/
theorem c7_witness :
    html.parse ⟨'<' :: ("p".data ++ ('>' :: 'h' :: 'i' :: '<' :: '/' :: ("p".data ++ ['>'])))⟩
      dom.DocumentData.new =
      some (dom.Node.element "p" [] [dom.Node.text "hi"], dom.DocumentData.new) ∧
    html.parse ⟨'<' :: ("p".data ++ ('>' :: 'h' :: 'i' :: '<' :: '/' :: ("q".data ++ ['>'])))⟩
      dom.DocumentData.new = none :=
  ⟨by
    have := c7_closing_tag "p".data "p".data dom.DocumentData.new (by decide) (by decide)
      (by decide) (by decide) (by decide)
    simpa using this,
   by
    have := c7_closing_tag "p".data "q".data dom.DocumentData.new (by decide) (by decide)
      (by decide) (by decide) (by decide)
    simpa using this⟩

/-- The style text `h1{font-size:14px;}` as characters. -/
def style_text : List Char :=
  ['h', '1', '{', 'f', 'o', 'n', 't', '-', 's', 'i', 'z', 'e', ':', '1', '4', 'p', 'x', ';', '}']

/-- The element `<style>h1{font-size:14px;}</style>` as characters. -/
def style_src : List Char :=
  '<' :: 's' :: 't' :: 'y' :: 'l' :: 'e' :: '>' ::
    (style_text ++ ['<', '/', 's', 't', 'y', 'l', 'e', '>'])

/-- The style element wrapped in `n` nested `div` elements. -/
def nest_div : Nat → List Char
  | 0 => style_src
  | n+1 => '<' :: 'd' :: 'i' :: 'v' :: '>' :: (nest_div n ++ ['<', '/', 'd', 'i', 'v', '>'])

/-- The node tree that parsing `nest_div n` produces. -/
def node_at : Nat → dom.Node
  | 0 => dom.Node.element "style" [] [dom.Node.text ⟨style_text⟩]
  | n+1 => dom.Node.element "div" [] [node_at n]

/-- The style sheet parsed from the nested style text: exactly one rule. -/
def c4_sheet : css.StyleSheet :=
  ⟨[⟨[css.Selector.Single ⟨some "h1", none, []⟩],
     [⟨"font-size", css.Value.Length "14" css.Unit.Px⟩]⟩]⟩

lemma nest_div_head : ∀ n, ∃ c t, nest_div n = '<' :: c :: t ∧ (c = 's' ∨ c = 'd') := by
  intro n
  cases n with
  | zero => exact ⟨'s', _, rfl, Or.inl rfl⟩
  | succ m => exact ⟨'d', _, rfl, Or.inr rfl⟩

lemma nest_div_length : ∀ n, (nest_div n).length = 11 * n + 34 := by
  intro n
  induction n with
  | zero => rfl
  | succ m ih =>
    simp [nest_div, List.length_append, ih]
    omega

lemma parse_node_nest : ∀ (n : Nat), ∀ (fuel : Nat) (ctx : dom.DocumentData) (rest : List Char),
    3 * n + 4 ≤ fuel →
    html.parse_node fuel (nest_div n ++ rest) ctx =
      some (node_at n, rest,
        { ctx with stylesheets := ctx.stylesheets ++ [c4_sheet] }) := by
  intro n
  induction n with
  | zero =>
    intro fuel ctx rest hf
    obtain ⟨f, rfl⟩ : ∃ f, fuel = f + 4 := ⟨fuel - 4, by omega⟩
    have hcss : dom.DocumentData.load_css ctx
        ⟨['h', '1', '{', 'f', 'o', 'n', 't', '-', 's', 'i', 'z', 'e', ':',
          '1', '4', 'p', 'x', ';', '}']⟩ =
        some { ctx with stylesheets := ctx.stylesheets ++ [c4_sheet] } := by
      simp [dom.DocumentData.load_css,
        show css.parse ⟨['h', '1', '{', 'f', 'o', 'n', 't', '-', 's', 'i', 'z', 'e', ':',
          '1', '4', 'p', 'x', ';', '}']⟩ = some c4_sheet from rfl]
    have hsty : (⟨['s', 't', 'y', 'l', 'e']⟩ : String) = "style" := rfl
    simp [nest_div, style_src, style_text, node_at, html.parse_node, html.parse_element,
      html.parse_attributes, html.parse_tag_name, html.parse_text, html.parse_nodes,
      consume_whitespace, consume_while, hcss, hsty]
  | succ n ih =>
    intro fuel ctx rest hf
    obtain ⟨g, rfl⟩ : ∃ g, fuel = g + 4 := ⟨fuel - 4, by omega⟩
    have htag : ∀ X : List Char, consume_while Char.isAlphanum
        ('d' :: 'i' :: 'v' :: '>' :: X) = (['d', 'i', 'v'], '>' :: X) :=
      fun X => by simp [consume_while]
    have hws_gt : ∀ X : List Char, consume_while Char.isWhitespace ('>' :: X) = ([], '>' :: X) :=
      fun X => consume_while_head_false _ _ _ (by decide)
    have hws_lt : ∀ X : List Char, consume_while Char.isWhitespace ('<' :: X) = ([], '<' :: X) :=
      fun X => consume_while_head_false _ _ _ (by decide)
    obtain ⟨c0, t0, hnt, hc0⟩ := nest_div_head n
    have hwsn : ∀ X : List Char, consume_while Char.isWhitespace (nest_div n ++ X) =
        ([], nest_div n ++ X) := fun X => by
      rw [hnt]
      exact consume_while_head_false _ _ _ (by decide)
    have hne : ∀ X : List Char, (nest_div n ++ X).isEmpty = false := fun X => by
      rw [hnt]; rfl
    have htk2 : ∀ X : List Char, ¬ ((nest_div n ++ X).take 2 = ['<', '/']) := fun X => by
      rw [hnt]
      rcases hc0 with rfl | rfl <;> simp
    have hchild := ih (g + 1) ctx ('<' :: '/' :: 'd' :: 'i' :: 'v' :: '>' :: rest) (by omega)
    have hdiv : (⟨['d', 'i', 'v']⟩ : String) = "div" := rfl
    simp only [nest_div, List.cons_append, List.append_assoc]
    rw [html.parse_node]
    simp [html.parse_element, html.parse_attributes, html.parse_tag_name,
      html.parse_nodes, consume_whitespace, node_at,
      htag, hws_gt, hws_lt, hwsn, hne, htk2, hchild, hdiv]

/-- C4: parsing the document that wraps `<style>h1{font-size:14px;}</style>`
in `n` nested `div` elements — for every nesting depth `n`, i.e. wherever
the style element sits in the tree — appends exactly one `StyleSheet`,
containing exactly one rule, to the shared context's stylesheet
collection, as a side effect of the markup parse. -/
theorem c4_style_collection : (∀ (n : Nat) (ctx : dom.DocumentData),
    html.parse ⟨nest_div n⟩ ctx =
      some (node_at n, { ctx with stylesheets := ctx.stylesheets ++ [c4_sheet] })) ∧
    (html.parse ⟨'<' :: 'p' :: '>' :: 'x' :: '<' :: '/' :: 'p' :: '>' :: nest_div 0⟩
      dom.DocumentData.new =
      some (dom.Node.element "html" []
        [dom.Node.element "p" [] [dom.Node.text "x"], node_at 0],
        ⟨none, [c4_sheet]⟩)) ∧
    c4_sheet.rules.length = 1 := by
  refine ⟨?_, by rfl, rfl⟩
  intro n ctx
  obtain ⟨c0, t0, hnt, hc0⟩ := nest_div_head n
  unfold html.parse
  rw [show ((⟨nest_div n⟩ : String)).data = nest_div n from rfl]
  rw [show (nest_div n).length + 1 = (11 * n + 34) + 1 from by rw [nest_div_length]]
  rw [html.parse_nodes]
  have hws0 : consume_while Char.isWhitespace (nest_div n) = ([], nest_div n) := by
    rw [hnt]
    exact consume_while_head_false _ _ _ (by decide)
  have hpn : html.parse_node (11 * n + 34) (nest_div n) ctx =
      some (node_at n, [], { ctx with stylesheets := ctx.stylesheets ++ [c4_sheet] }) := by
    have := parse_node_nest n (11 * n + 34) ctx [] (by omega)
    rwa [List.append_nil] at this
  have hne3 : ¬ (nest_div n = []) := by rw [hnt]; simp
  have htk2 : ¬ ((nest_div n).take 2 = ['<', '/']) := by
    rw [hnt]
    rcases hc0 with rfl | rfl <;> simp
  simp [hws0, hne3, htk2, hpn, html.parse_nodes, consume_whitespace, consume_while]
